import Mathlib

/-!
# Verification of the pxp-agent action-execution core

The only source file of the repository is
`src/lib/inc/pxp-agent/action_output.hpp`, which declares the result
struct `ActionOutput`.  All surrounding components of the execution core
(ProcessLauncher, StreamCapture, TimeoutSupervisor, ResultAggregator,
ActionExecutor) are described by the specification but absent from the
source tree, so they are modelled here from the spec's words; each such
definition carries a doc comment starting with `Modelled from the spec:`.
-/

namespace PXPAgent

/-- Embeds `struct ActionOutput` from `src/lib/inc/pxp-agent/action_output.hpp`
(lines 10-14): an `int exitcode` and two `std::string` members `std_out`
and `std_err`.  C++ `int` is embedded as `Int`, `std::string` as `String`. -/
structure ActionOutput where
  exitcode : Int
  std_out : String
  std_err : String
deriving DecidableEq, Repr

/-- Embeds C++ default-initialization of `ActionOutput`
(`src/lib/inc/pxp-agent/action_output.hpp` lines 10-14): the two
`std::string` members are default-constructed to the empty string, while
the `int exitcode` member is left uninitialized; the indeterminate value
it happens to hold is taken as a parameter. -/
def ActionOutput.defaultInit (indeterminate : Int) : ActionOutput :=
  { exitcode := indeterminate, std_out := "", std_err := "" }

/-- Modelled from the spec: `ActionRequest` (§3) — missing from `src/`.
Action identifier, executable path, ordered arguments, optional input
payload (bytes, embedded as a character list), and a timeout duration
where `none` means "no timeout". -/
structure ActionRequest where
  action_id : String
  command : String
  args : List String
  input_payload : List Char
  timeout_ms : Option Nat
deriving DecidableEq, Repr

/-- Modelled from the spec: `CapturedStream` (§3) — missing from `src/`.
Accumulated bytes for one output channel, a flag for size-cap truncation
and a flag for a read error before end-of-stream. -/
structure CapturedStream where
  bytes : List Char
  truncated : Bool
  read_error : Bool
deriving DecidableEq, Repr

/-- Modelled from the spec: the exit status reaped for a child process
(§4.4) — missing from `src/`.  Either a normal exit with a code, or
death by signal / forced termination. -/
inductive ExitStatus where
  | exited (code : Nat) : ExitStatus
  | killed : ExitStatus
deriving DecidableEq, Repr

/-- Modelled from the spec: OS guarantee that a normal exit code lies in
the 0-255 range (§8, "0-255 range or platform equivalent"). -/
def ExitStatus.validCode : ExitStatus → Bool
  | .exited code => code ≤ 255
  | .killed => true

/-- Modelled from the spec: the reserved sentinel exit code meaning
"process was killed / never produced a normal exit code" (§3, §4.4, §9:
"a documented negative number", out of band of every real exit code). -/
def killedSentinel : Int := -1

/-- Modelled from the spec: the observables of one spawned child during
one run (§4.1-§4.4, §6) — missing from `src/`.  The bytes that actually
come through each output pipe before it closes, an optional position at
which a pipe read error cut a stream short, the reaped exit status, the
running time (`none` = never finishes on its own), and whether the
OS-level wait (reap) fails. -/
structure ProcessRun where
  stdout_produced : List Char
  stderr_produced : List Char
  stdout_error_at : Option Nat
  stderr_error_at : Option Nat
  status : ExitStatus
  duration_ms : Option Nat
  reap_fails : Bool
deriving DecidableEq, Repr

/-- Modelled from the spec: the result of one spawn attempt (§4.1) —
missing from `src/`.  Either the OS refuses to create the process
(missing executable, not executable, resource exhaustion), or a child
runs with the given observables. -/
inductive SpawnResult where
  | failure : SpawnResult
  | success (run : ProcessRun) : SpawnResult
deriving DecidableEq, Repr

/-- Modelled from the spec: the TimeoutSupervisor outcome (§4.3) —
missing from `src/`. -/
inductive Outcome where
  | completed : Outcome
  | timedOut : Outcome
deriving DecidableEq, Repr

/-- Modelled from the spec: `TimeoutSupervisor.supervise` (§4.3) —
missing from `src/`.  With no timeout configured the component is
disabled; otherwise the process completing within the deadline reports
`completed`, and the deadline elapsing first reports `timedOut`. -/
def supervise (timeout_ms : Option Nat) (run : ProcessRun) : Outcome :=
  match timeout_ms with
  | none => .completed
  | some deadline =>
      match run.duration_ms with
      | none => .timedOut
      | some dur => if dur ≤ deadline then .completed else .timedOut

/-- Modelled from the spec: the StreamCapture read loop for one stream
(§4.2) — missing from `src/`.  Bytes are appended while under the size
cap; once the cap is reached further bytes are discarded but the loop
keeps draining and marks the stream truncated. -/
def captureLoop (cap : Nat) : List Char → CapturedStream → CapturedStream
  | [], acc => acc
  | b :: rest, acc =>
      if acc.bytes.length < cap then
        captureLoop cap rest { acc with bytes := acc.bytes ++ [b] }
      else
        captureLoop cap rest { acc with truncated := true }

/-- Modelled from the spec: `StreamCapture` for one stream (§4.2) —
missing from `src/`.  A read error at position `k` ends that stream's
capture early, preserving the bytes collected so far and setting the
error flag; otherwise the loop runs to end-of-stream. -/
def captureStream (cap : Nat) (produced : List Char) (error_at : Option Nat) :
    CapturedStream :=
  match error_at with
  | none => captureLoop cap produced { bytes := [], truncated := false, read_error := false }
  | some k =>
      let sofar := captureLoop cap (produced.take k)
        { bytes := [], truncated := false, read_error := false }
      { sofar with read_error := true }

/-- Modelled from the spec: `ResultAggregator.aggregate` (§4.4) —
missing from `src/`.  Normal exit yields the process's exit code; a kill
(signal or timeout) yields the reserved sentinel; captured bytes are
always included. -/
def aggregate (exit_status : ExitStatus) (stdout_capture stderr_capture : CapturedStream)
    (timed_out : Bool) : ActionOutput :=
  { exitcode :=
      if timed_out then killedSentinel
      else
        match exit_status with
        | .exited code => (code : Int)
        | .killed => killedSentinel,
    std_out := String.mk stdout_capture.bytes,
    std_err := String.mk stderr_capture.bytes }

/-- Modelled from the spec: the executor's typed failures (§7) —
missing from `src/`.  Spawn-time and reap-time errors abort with no
result; everything else yields a best-effort `ActionOutput`. -/
inductive ExecutionError where
  | spawnError : ExecutionError
  | reapError : ExecutionError
deriving DecidableEq, Repr

/-- Modelled from the spec: the value returned to the caller (§4.4, §7):
the `ActionOutput` plus the per-stream truncation/error flags exposed as
metadata alongside the streams — missing from `src/`. -/
structure ExecutionResult where
  output : ActionOutput
  stdout_capture : CapturedStream
  stderr_capture : CapturedStream
deriving DecidableEq, Repr

/-- Modelled from the spec: OS process-table bookkeeping (§4.5, §5) —
missing from `src/`.  Tracks the next process identifier and the
identifiers of live (spawned, not yet reaped) children. -/
structure ProcessTable where
  next_pid : Nat
  live : List Nat
deriving DecidableEq, Repr

/-- Modelled from the spec: `ActionExecutor.execute` threaded through the
process table (§4.5) — missing from `src/`.  Sequences spawn → concurrent
capture + timeout race → reap → aggregate.  On spawn failure no process
is created and `spawnError` is surfaced; on success a process-table slot
is consumed at spawn and released at reap on every exit path. -/
def executeWithTable (cap : Nat) (request : ActionRequest) (spawn : SpawnResult)
    (table : ProcessTable) : Except ExecutionError ExecutionResult × ProcessTable :=
  match spawn with
  | .failure => (.error .spawnError, table)
  | .success run =>
      let pid := table.next_pid
      let spawned : ProcessTable := { next_pid := pid + 1, live := pid :: table.live }
      let outcome := supervise request.timeout_ms run
      let stdout_capture := captureStream cap run.stdout_produced run.stdout_error_at
      let stderr_capture := captureStream cap run.stderr_produced run.stderr_error_at
      let reaped : ProcessTable := { spawned with live := spawned.live.erase pid }
      if run.reap_fails then
        (.error .reapError, reaped)
      else
        let timed_out := match outcome with | .timedOut => true | .completed => false
        let status := if timed_out then ExitStatus.killed else run.status
        (.ok { output := aggregate status stdout_capture stderr_capture timed_out,
               stdout_capture := stdout_capture,
               stderr_capture := stderr_capture }, reaped)

/-- Modelled from the spec: `ActionExecutor.execute` (§4.5), the single
externally-visible operation — missing from `src/`. -/
def execute (cap : Nat) (request : ActionRequest) (spawn : SpawnResult) :
    Except ExecutionError ExecutionResult :=
  (executeWithTable cap request spawn { next_pid := 0, live := [] }).1

/-! ## Helper lemmas about the capture loop and the executor -/

/-- The read loop, started from any accumulator still under the cap,
appends exactly the next `cap - |acc|` bytes, ORs the truncation flag
with "more bytes arrived than fit", and never touches the error flag. -/
theorem captureLoop_spec (cap : Nat) (l : List Char) :
    ∀ acc : CapturedStream, acc.bytes.length ≤ cap →
      (captureLoop cap l acc).bytes = acc.bytes ++ l.take (cap - acc.bytes.length) ∧
      (captureLoop cap l acc).truncated
        = (acc.truncated || decide (cap - acc.bytes.length < l.length)) ∧
      (captureLoop cap l acc).read_error = acc.read_error := by
  induction l with
  | nil =>
      intro acc _
      simp [captureLoop]
  | cons b rest ih =>
      intro acc hle
      by_cases hlt : acc.bytes.length < cap
      · have hlen : (acc.bytes ++ [b]).length ≤ cap := by
          simp only [List.length_append, List.length_singleton]
          omega
        have h := ih { acc with bytes := acc.bytes ++ [b] } hlen
        simp only [captureLoop, if_pos hlt]
        refine ⟨?_, ?_, h.2.2⟩
        · rw [h.1]
          have hcap : cap - acc.bytes.length = (cap - (acc.bytes.length + 1)) + 1 := by
            omega
          simp only [List.length_append, List.length_singleton, List.append_assoc,
            List.singleton_append, hcap, List.take_succ_cons]
        · rw [h.2.1]
          congr 1
          simp only [List.length_append, List.length_singleton, List.length_cons,
            List.length_nil]
          exact decide_eq_decide.mpr (by omega)
      · have heq : acc.bytes.length = cap := by omega
        have h := ih { acc with truncated := true } (by simpa using hle)
        simp only [captureLoop, if_neg hlt]
        refine ⟨?_, ?_, h.2.2⟩
        · rw [h.1]
          simp [heq]
        · rw [h.2.1]
          simp [heq]

/-- Error-free capture keeps the first `cap` bytes, flags truncation
exactly when the stream exceeded the cap, and reports no read error. -/
theorem captureStream_none (cap : Nat) (produced : List Char) :
    captureStream cap produced none
      = { bytes := produced.take cap,
          truncated := decide (cap < produced.length),
          read_error := false } := by
  have h := captureLoop_spec cap produced
    { bytes := [], truncated := false, read_error := false } (by simp)
  simp only [captureStream] at *
  cases hc : captureLoop cap produced { bytes := [], truncated := false, read_error := false }
  rw [hc] at h
  simp at h
  simp [h.1, h.2.1, h.2.2]

/-- Capture cut short by a read error at position `k` keeps the bytes
collected so far (the first `k`, still subject to the cap) and sets the
error flag. -/
theorem captureStream_some (cap : Nat) (produced : List Char) (k : Nat) :
    captureStream cap produced (some k)
      = { bytes := (produced.take k).take cap,
          truncated := decide (cap < (produced.take k).length),
          read_error := true } := by
  have h := captureLoop_spec cap (produced.take k)
    { bytes := [], truncated := false, read_error := false } (by simp)
  simp only [captureStream]
  cases hc : captureLoop cap (produced.take k)
    { bytes := [], truncated := false, read_error := false }
  rw [hc] at h
  simp at h
  simp [h.1, h.2.1]

/-- The result component of the executor does not depend on the incoming
process table; only the bookkeeping component does. -/
theorem executeWithTable_fst (cap : Nat) (request : ActionRequest) (spawn : SpawnResult)
    (table : ProcessTable) :
    (executeWithTable cap request spawn table).1 = execute cap request spawn := by
  cases spawn with
  | failure => rfl
  | success run =>
      simp only [execute, executeWithTable]
      by_cases h : run.reap_fails <;> simp [h]

/-- The executor releases every process-table slot it consumed: the set
of live children after a call is exactly the set before it. -/
theorem executeWithTable_live (cap : Nat) (request : ActionRequest) (spawn : SpawnResult)
    (table : ProcessTable) :
    (executeWithTable cap request spawn table).2.live = table.live := by
  cases spawn with
  | failure => rfl
  | success run =>
      simp only [executeWithTable]
      by_cases h : run.reap_fails <;> simp [h, List.erase_cons_head]

/-- Unfolding of a successful execution whose reap succeeds. -/
theorem execute_success_eq (cap : Nat) (request : ActionRequest) (run : ProcessRun)
    (hreap : run.reap_fails = false) :
    execute cap request (.success run) =
      (let timed_out := match supervise request.timeout_ms run with
        | .timedOut => true
        | .completed => false
      let so := captureStream cap run.stdout_produced run.stdout_error_at
      let se := captureStream cap run.stderr_produced run.stderr_error_at
      .ok { output := aggregate (if timed_out then .killed else run.status) so se timed_out,
            stdout_capture := so, stderr_capture := se }) := by
  simp [execute, executeWithTable, hreap]

/-! ## Concrete inputs used by the witnesses -/

/-- A concrete request with no timeout configured. -/
def sampleRequest : ActionRequest :=
  { action_id := "sample", command := "bin/action", args := [],
    input_payload := [], timeout_ms := none }

/-- A concrete run that exits normally with code 7 and produces no output. -/
def sampleRun : ProcessRun :=
  { stdout_produced := [], stderr_produced := [], stdout_error_at := none,
    stderr_error_at := none, status := .exited 7, duration_ms := some 5,
    reap_fails := false }

/-- A concrete request with a 1000 ms timeout. -/
def timeoutRequest : ActionRequest :=
  { action_id := "slow", command := "bin/slow", args := [],
    input_payload := [], timeout_ms := some 1000 }

/-- A concrete run that takes 10000 ms, past the 1000 ms deadline. -/
def slowRun : ProcessRun :=
  { stdout_produced := [], stderr_produced := [], stdout_error_at := none,
    stderr_error_at := none, status := .killed, duration_ms := some 10000,
    reap_fails := false }

/-- A concrete request carrying the payload "hi". -/
def echoRequest : ActionRequest :=
  { action_id := "echo", command := "bin/echo", args := [],
    input_payload := [Char.ofNat 104, Char.ofNat 105], timeout_ms := none }

/-- A concrete run echoing the payload "hi" back on stdout. -/
def echoRun : ProcessRun :=
  { stdout_produced := [Char.ofNat 104, Char.ofNat 105], stderr_produced := [],
    stdout_error_at := none, stderr_error_at := none, status := .exited 0,
    duration_ms := some 1, reap_fails := false }

/-! ## Claim theorems -/

/-- C1: for every successfully spawned action that exits normally with
exit code `n` (deadline not exceeded, reap succeeding), the
`ActionOutput` returned by `execute` has `exitcode` equal to `n`. -/
theorem exitcode_of_normal_exit (cap : Nat) (request : ActionRequest) (run : ProcessRun)
    (n : Nat) (hstatus : run.status = .exited n) (hreap : run.reap_fails = false)
    (hdone : supervise request.timeout_ms run = .completed) :
    ∃ res, execute cap request (.success run) = .ok res ∧
      res.output.exitcode = (n : Int) := by
  refine ⟨_, execute_success_eq cap request run hreap, ?_⟩
  simp [hdone, hstatus, aggregate]

/-- Closed witness for C1 at a run exiting with code 7. -/
theorem exitcode_of_normal_exit_witness :
    sampleRun.status = .exited 7 ∧ sampleRun.reap_fails = false ∧
    supervise sampleRequest.timeout_ms sampleRun = .completed ∧
    (∃ res, execute 16 sampleRequest (.success sampleRun) = .ok res ∧
      res.output.exitcode = (7 : Int)) :=
  ⟨rfl, rfl, rfl, exitcode_of_normal_exit 16 sampleRequest sampleRun 7 rfl rfl rfl⟩

/-- C2: for every action terminated by timeout (reap succeeding),
`execute` still produces an `ActionOutput` — timeout is not a fatal
executor error — whose `exitcode` is the reserved sentinel, and the
sentinel is distinct from every valid normal exit code in 0-255. -/
theorem timeout_sentinel_exitcode (cap : Nat) (request : ActionRequest) (run : ProcessRun)
    (hreap : run.reap_fails = false)
    (htimeout : supervise request.timeout_ms run = .timedOut) :
    (∃ res, execute cap request (.success run) = .ok res ∧
      res.output.exitcode = killedSentinel) ∧
    ∀ c : Int, 0 ≤ c → c ≤ 255 → killedSentinel ≠ c := by
  constructor
  · refine ⟨_, execute_success_eq cap request run hreap, ?_⟩
    simp [htimeout, aggregate]
  · intro c h0 _ h
    rw [killedSentinel] at h
    omega

/-- Closed witness for C2 at a 10000 ms run under a 1000 ms deadline. -/
theorem timeout_sentinel_exitcode_witness :
    slowRun.reap_fails = false ∧
    supervise timeoutRequest.timeout_ms slowRun = .timedOut ∧
    ((∃ res, execute 16 timeoutRequest (.success slowRun) = .ok res ∧
      res.output.exitcode = killedSentinel) ∧
    ∀ c : Int, 0 ≤ c → c ≤ 255 → killedSentinel ≠ c) :=
  ⟨rfl, rfl, timeout_sentinel_exitcode 16 timeoutRequest slowRun rfl rfl⟩

/-- C5: for every request whose spawn fails (executable missing, not
executable, or refused by the OS), the executor surfaces `spawnError`
directly, produces no result, and leaves the set of live child
processes exactly as it was — no partial process running. -/
theorem spawn_failure_surfaced (cap : Nat) (request : ActionRequest) (table : ProcessTable) :
    (executeWithTable cap request .failure table).1 = .error .spawnError ∧
    (∀ res, (executeWithTable cap request .failure table).1 ≠ .ok res) ∧
    (executeWithTable cap request .failure table).2 = table := by
  refine ⟨rfl, ?_, rfl⟩
  intro res h
  exact Except.noConfusion h

/-- C7: an action that echoes its stdin payload to stdout, for a payload
not exceeding the size cap, yields `std_out` byte-identical to the
supplied payload. -/
theorem echo_roundtrip (cap : Nat) (request : ActionRequest) (run : ProcessRun)
    (hecho : run.stdout_produced = request.input_payload)
    (hnoerr : run.stdout_error_at = none)
    (hreap : run.reap_fails = false)
    (hsize : request.input_payload.length ≤ cap) :
    ∃ res, execute cap request (.success run) = .ok res ∧
      res.output.std_out.data = request.input_payload := by
  refine ⟨_, execute_success_eq cap request run hreap, ?_⟩
  simp [hecho, hnoerr, captureStream_none, aggregate, List.take_of_length_le hsize]

/-- Closed witness for C7 at the payload "hi". -/
theorem echo_roundtrip_witness :
    echoRun.stdout_produced = echoRequest.input_payload ∧
    echoRun.stdout_error_at = none ∧
    echoRun.reap_fails = false ∧
    echoRequest.input_payload.length ≤ 16 ∧
    (∃ res, execute 16 echoRequest (.success echoRun) = .ok res ∧
      res.output.std_out.data = echoRequest.input_payload) :=
  ⟨rfl, rfl, rfl, by decide,
   echo_roundtrip 16 echoRequest echoRun rfl rfl rfl (by decide)⟩

/-- C8: executing the same request twice against the same deterministic
action behavior yields identical results — the second invocation,
starting from the process table the first one left behind, returns the
very same `ActionOutput` value. -/
theorem execute_idempotent (cap : Nat) (request : ActionRequest)
    (spawn : SpawnResult) (table : ProcessTable) :
    (executeWithTable cap request spawn (executeWithTable cap request spawn table).2).1
      = (executeWithTable cap request spawn table).1 := by
  rw [executeWithTable_fst, executeWithTable_fst]

/-- C10: a default-initialized `ActionOutput` has `std_out` and `std_err`
present as empty strings, while `exitcode` holds whatever indeterminate
value the uninitialized `int` happens to contain — two different
indeterminate values give two different results. -/
theorem defaultInit_uninitialized_exitcode :
    (∀ v : Int, (ActionOutput.defaultInit v).std_out = "" ∧
      (ActionOutput.defaultInit v).std_err = "" ∧
      (ActionOutput.defaultInit v).exitcode = v) ∧
    ActionOutput.defaultInit 0 ≠ ActionOutput.defaultInit 1 := by
  refine ⟨fun v => ⟨rfl, rfl, rfl⟩, fun h => ?_⟩
  have h2 := congrArg ActionOutput.exitcode h
  simp [ActionOutput.defaultInit] at h2

/-- The result of the sample run: exit code 7, both streams empty. -/
def sampleResult : ExecutionResult :=
  { output := { exitcode := 7, std_out := "", std_err := "" },
    stdout_capture := { bytes := [], truncated := false, read_error := false },
    stderr_capture := { bytes := [], truncated := false, read_error := false } }

/-- A concrete run producing six stdout bytes (truncated at cap 3) and a
stderr stream cut by a read error after one byte. -/
def truncRun : ProcessRun :=
  { stdout_produced := [Char.ofNat 97, Char.ofNat 98, Char.ofNat 99,
      Char.ofNat 100, Char.ofNat 101, Char.ofNat 102],
    stderr_produced := [Char.ofNat 120, Char.ofNat 121],
    stdout_error_at := none, stderr_error_at := some 1,
    status := .exited 0, duration_ms := some 1, reap_fails := false }

/-- The result of `truncRun` under cap 3. -/
def truncResult : ExecutionResult :=
  { output := { exitcode := 0, std_out := "abc", std_err := "x" },
    stdout_capture := { bytes := [Char.ofNat 97, Char.ofNat 98, Char.ofNat 99],
                        truncated := true, read_error := false },
    stderr_capture := { bytes := [Char.ofNat 120],
                        truncated := false, read_error := true } }

/-- The exit code an aggregation produces is either the sentinel or a
normal code in 0-255, never both, as long as the reaped status carries a
valid OS exit code. -/
theorem aggregate_exitcode_xor (status : ExitStatus) (so se : CapturedStream) (t : Bool)
    (h : status.validCode = true) :
    Xor' ((aggregate status so se t).exitcode = killedSentinel)
      (0 ≤ (aggregate status so se t).exitcode ∧
        (aggregate status so se t).exitcode ≤ 255) := by
  cases t with
  | true =>
      left
      refine ⟨by simp [aggregate], ?_⟩
      simp only [aggregate, if_true, killedSentinel]
      omega
  | false =>
      cases status with
      | killed =>
          left
          refine ⟨by simp [aggregate], ?_⟩
          simp only [aggregate, Bool.false_eq_true, if_false, killedSentinel]
          omega
      | exited code =>
          have hv : code ≤ 255 := by simpa [ExitStatus.validCode] using h
          right
          simp only [aggregate, Bool.false_eq_true, if_false, killedSentinel]
          constructor
          · constructor
            · exact Int.natCast_nonneg code
            · exact_mod_cast hv
          · intro hc
            omega

/-- C3: every `ActionOutput` a successful execution returns satisfies the
invariant: exactly one of {normal exit code in 0-255, killed sentinel} is
set in `exitcode`, and `std_out`/`std_err` are both present, each being
exactly the decoding of its stream's completed capture (one consistent
assignment, never a partial mix). -/
theorem output_invariant (cap : Nat) (request : ActionRequest) (spawn : SpawnResult)
    (res : ExecutionResult)
    (hok : execute cap request spawn = .ok res)
    (hvalid : ∀ run, spawn = .success run → run.status.validCode = true) :
    Xor' (res.output.exitcode = killedSentinel)
      (0 ≤ res.output.exitcode ∧ res.output.exitcode ≤ 255) ∧
    res.output.std_out = String.mk res.stdout_capture.bytes ∧
    res.output.std_err = String.mk res.stderr_capture.bytes := by
  cases spawn with
  | failure => exact absurd hok (by simp [execute, executeWithTable])
  | success run =>
      by_cases hreap : run.reap_fails
      · rw [show execute cap request (.success run) = .error .reapError from by
            simp [execute, executeWithTable, hreap]] at hok
        exact Except.noConfusion hok
      · rw [execute_success_eq cap request run (by simpa using hreap)] at hok
        simp only [Except.ok.injEq] at hok
        subst hok
        refine ⟨aggregate_exitcode_xor _ _ _ _ ?_, rfl, rfl⟩
        cases hsup : supervise request.timeout_ms run with
        | timedOut => simp [hsup, ExitStatus.validCode]
        | completed => simpa [hsup] using hvalid run rfl

/-- Closed witness for C3 at the sample run. -/
theorem output_invariant_witness :
    execute 16 sampleRequest (.success sampleRun) = .ok sampleResult ∧
    (Xor' (sampleResult.output.exitcode = killedSentinel)
      (0 ≤ sampleResult.output.exitcode ∧ sampleResult.output.exitcode ≤ 255) ∧
     sampleResult.output.std_out = String.mk sampleResult.stdout_capture.bytes ∧
     sampleResult.output.std_err = String.mk sampleResult.stderr_capture.bytes) :=
  ⟨rfl,
   output_invariant 16 sampleRequest (.success sampleRun) sampleResult rfl
     (fun run h => by cases h; decide)⟩

/-- C4: for every stream whose output exceeds the per-stream cap or whose
pipe read fails before end-of-stream, the bytes captured so far are still
included in the result, and the truncation/error flags are exposed to the
caller as metadata alongside the streams of the `ActionOutput`. -/
theorem capture_metadata_exposed (cap : Nat) (request : ActionRequest) (run : ProcessRun)
    (res : ExecutionResult)
    (hok : execute cap request (.success run) = .ok res) :
    (run.stdout_error_at = none →
       res.stdout_capture.bytes = run.stdout_produced.take cap ∧
       res.stdout_capture.truncated = decide (cap < run.stdout_produced.length)) ∧
    (∀ k, run.stdout_error_at = some k →
       res.stdout_capture.read_error = true ∧
       res.stdout_capture.bytes = (run.stdout_produced.take k).take cap) ∧
    res.output.std_out = String.mk res.stdout_capture.bytes ∧
    (run.stderr_error_at = none →
       res.stderr_capture.bytes = run.stderr_produced.take cap ∧
       res.stderr_capture.truncated = decide (cap < run.stderr_produced.length)) ∧
    (∀ k, run.stderr_error_at = some k →
       res.stderr_capture.read_error = true ∧
       res.stderr_capture.bytes = (run.stderr_produced.take k).take cap) ∧
    res.output.std_err = String.mk res.stderr_capture.bytes := by
  by_cases hreap : run.reap_fails
  · rw [show execute cap request (.success run) = .error .reapError from by
        simp [execute, executeWithTable, hreap]] at hok
    exact Except.noConfusion hok
  · rw [execute_success_eq cap request run (by simpa using hreap)] at hok
    simp only [Except.ok.injEq] at hok
    subst hok
    refine ⟨?_, ?_, rfl, ?_, ?_, rfl⟩
    · intro h
      rw [h, captureStream_none]
      exact ⟨rfl, rfl⟩
    · intro k hk
      rw [hk, captureStream_some]
      exact ⟨rfl, rfl⟩
    · intro h
      rw [h, captureStream_none]
      exact ⟨rfl, rfl⟩
    · intro k hk
      rw [hk, captureStream_some]
      exact ⟨rfl, rfl⟩

/-- Closed witness for C4 at a truncated stdout and an error-cut stderr. -/
theorem capture_metadata_exposed_witness :
    execute 3 sampleRequest (.success truncRun) = .ok truncResult ∧
    ((truncRun.stdout_error_at = none →
        truncResult.stdout_capture.bytes = truncRun.stdout_produced.take 3 ∧
        truncResult.stdout_capture.truncated
          = decide (3 < truncRun.stdout_produced.length)) ∧
     (∀ k, truncRun.stdout_error_at = some k →
        truncResult.stdout_capture.read_error = true ∧
        truncResult.stdout_capture.bytes = (truncRun.stdout_produced.take k).take 3) ∧
     truncResult.output.std_out = String.mk truncResult.stdout_capture.bytes ∧
     (truncRun.stderr_error_at = none →
        truncResult.stderr_capture.bytes = truncRun.stderr_produced.take 3 ∧
        truncResult.stderr_capture.truncated
          = decide (3 < truncRun.stderr_produced.length)) ∧
     (∀ k, truncRun.stderr_error_at = some k →
        truncResult.stderr_capture.read_error = true ∧
        truncResult.stderr_capture.bytes = (truncRun.stderr_produced.take k).take 3) ∧
     truncResult.output.std_err = String.mk truncResult.stderr_capture.bytes) :=
  ⟨rfl, capture_metadata_exposed 3 sampleRequest truncRun truncResult rfl⟩

namespace PipeModel

/-!
## Small-step model of concurrent pipe draining (§4.2, §5)

The deadlock hazard of §4.2 is OS-level: a sequential child that fills a
bounded pipe buffer blocks until the parent drains it.  The model below
makes that explicit: the child is one sequential writer with an
interleaved plan of stdout/stderr writes, each pipe buffer holds at most
`B` bytes, a blocked write makes no progress, and the parent runs both
stream readers concurrently with the child in a fair round-robin
schedule, exactly the structure §4.2 and §5 prescribe.
-/

/-- Modelled from the spec: the two output channels of the child (§4.2)
— missing from `src/`. -/
inductive Chan where
  | out : Chan
  | err : Chan
deriving DecidableEq, Repr

/-- The bytes a sequential write plan sends to one channel, in order. -/
def chanBytes (c : Chan) (writes : List (Chan × Char)) : List Char :=
  writes.filterMap (fun p => if p.1 = c then some p.2 else none)

/-- Modelled from the spec: the state of one action's pipe system (§4.2,
§5) — missing from `src/`.  The child's remaining sequential writes, the
two bounded OS pipe buffers, and the two captures being accumulated. -/
structure DrainState where
  writes : List (Chan × Char)
  outBuf : List Char
  errBuf : List Char
  outCap : CapturedStream
  errCap : CapturedStream
deriving DecidableEq, Repr

/-- The child attempts its next write; when the destination pipe buffer
is full (capacity `B`) the write blocks and the child makes no
progress — the §4.2 hazard. -/
def childStep (B : Nat) (s : DrainState) : DrainState :=
  match s.writes with
  | [] => s
  | (ch, b) :: rest =>
      match ch with
      | .out =>
          if s.outBuf.length < B then
            { s with writes := rest, outBuf := s.outBuf ++ [b] }
          else s
      | .err =>
          if s.errBuf.length < B then
            { s with writes := rest, errBuf := s.errBuf ++ [b] }
          else s

/-- One reader task consumes one byte from its pipe buffer, appending it
to its capture while under the size cap and discarding it (marking
truncation) past the cap — the §4.2 read loop, one step at a time. -/
def readByte (cap : Nat) (buf : List Char) (c : CapturedStream) :
    List Char × CapturedStream :=
  match buf with
  | [] => ([], c)
  | b :: rest =>
      (rest,
       if c.bytes.length < cap then { c with bytes := c.bytes ++ [b] }
       else { c with truncated := true })

/-- One concurrent round of the fair schedule: the child attempts a
write, then each stream reader drains one byte — stdout and stderr never
serialize on each other, and reading proceeds in parallel with the child
still running (§4.2, §5). -/
def round (B cap : Nat) (s : DrainState) : DrainState :=
  let s1 := childStep B s
  { writes := s1.writes,
    outBuf := (readByte cap s1.outBuf s1.outCap).1,
    outCap := (readByte cap s1.outBuf s1.outCap).2,
    errBuf := (readByte cap s1.errBuf s1.errCap).1,
    errCap := (readByte cap s1.errBuf s1.errCap).2 }

/-- The action is finished: the child wrote everything (then exited,
closing its pipe ends) and both buffers have been fully drained. -/
def finished (s : DrainState) : Bool :=
  s.writes.isEmpty && s.outBuf.isEmpty && s.errBuf.isEmpty

/-- Run the concurrent drain for at most `fuel` rounds, stopping once
finished. -/
def drainRun (B cap : Nat) (fuel : Nat) (s : DrainState) : DrainState :=
  match fuel with
  | 0 => s
  | fuel + 1 => if finished s then s else drainRun B cap fuel (round B cap s)

/-- Progress measure: bytes still inside the child count double (they
must cross the buffer), buffered bytes count once. -/
def sMeasure (s : DrainState) : Nat :=
  2 * s.writes.length + s.outBuf.length + s.errBuf.length

/-- The initial state: the whole plan still in the child, buffers and
captures empty. -/
def initState (writes : List (Chan × Char)) : DrainState :=
  { writes := writes, outBuf := [], errBuf := [],
    outCap := { bytes := [], truncated := false, read_error := false },
    errCap := { bytes := [], truncated := false, read_error := false } }

/-- Per-channel invariant of the drain: some `n` bytes of the channel's
total stream `orig` have been read so far; the capture holds their first
`cap`, truncation is flagged exactly when `n` passed the cap, and buffer
plus unwritten bytes are exactly the rest of the stream. -/
def chanInv (B cap : Nat) (orig buf : List Char) (cs : CapturedStream)
    (pending : List Char) : Prop :=
  ∃ n, n ≤ orig.length ∧
    cs.bytes = orig.take (min n cap) ∧
    cs.truncated = decide (cap < n) ∧
    cs.read_error = false ∧
    buf ++ pending = orig.drop n ∧
    buf.length ≤ B

/-- The joint invariant over both channels, for a run whose stdout-total
is `O` and stderr-total is `E`. -/
def drainInv (B cap : Nat) (O E : List Char) (s : DrainState) : Prop :=
  chanInv B cap O s.outBuf s.outCap (chanBytes .out s.writes) ∧
  chanInv B cap E s.errBuf s.errCap (chanBytes .err s.writes)

/-- Reading one byte leaves the buffer's tail. -/
theorem readByte_fst (cap : Nat) (buf : List Char) (c : CapturedStream) :
    (readByte cap buf c).1 = buf.tail := by
  cases buf <;> rfl

/-- A write plan headed by channel `c` contributes its byte to `c`. -/
theorem chanBytes_cons_same (c : Chan) (b : Char) (rest : List (Chan × Char)) :
    chanBytes c ((c, b) :: rest) = b :: chanBytes c rest := by
  cases c <;> rfl

/-- A write plan headed by the other channel contributes nothing to `c`. -/
theorem chanBytes_cons_other (c c2 : Chan) (b : Char) (rest : List (Chan × Char))
    (h : ¬ c2 = c) : chanBytes c ((c2, b) :: rest) = chanBytes c rest := by
  cases c2 <;> cases c
  case out.out => exact absurd rfl h
  case err.err => exact absurd rfl h
  all_goals rfl

/-- One reader step preserves the per-channel invariant. -/
theorem chanInv_readByte (B cap : Nat) (orig buf pending : List Char)
    (cs : CapturedStream) (h : chanInv B cap orig buf cs pending) :
    chanInv B cap orig (readByte cap buf cs).1 (readByte cap buf cs).2 pending := by
  obtain ⟨n, hn, hb, ht, he, hsplit, hblen⟩ := h
  cases buf with
  | nil => exact ⟨n, hn, hb, ht, he, hsplit, by simp [readByte]⟩
  | cons b rest =>
      have hdrop : orig.drop n = b :: (rest ++ pending) := by
        rw [← hsplit]
        rfl
      have hnlt : n < orig.length := by
        by_contra hcon
        have hnil : orig.drop n = [] := List.drop_eq_nil_iff.mpr (by omega)
        rw [hnil] at hdrop
        exact List.noConfusion hdrop
      have hdrop1 : rest ++ pending = orig.drop (n + 1) := by
        rw [← List.tail_drop orig n, hdrop]
        rfl
      have hcslen : cs.bytes.length = min n cap := by
        rw [hb, List.length_take]
        omega
      refine ⟨n + 1, by omega, ?_, ?_, ?_, ?_, ?_⟩
      · show (if cs.bytes.length < cap
            then { cs with bytes := cs.bytes ++ [b] }
            else { cs with truncated := true }).bytes = orig.take (min (n + 1) cap)
        by_cases hc : n < cap
        · rw [if_pos (by omega), hb]
          have hmn : min n cap = n := by omega
          have hmn1 : min (n + 1) cap = n + 1 := by omega
          rw [hmn, hmn1, List.take_add orig n 1, hdrop]
          rfl
        · rw [if_neg (by omega), hb]
          congr 1
          omega
      · show (if cs.bytes.length < cap
            then { cs with bytes := cs.bytes ++ [b] }
            else { cs with truncated := true }).truncated = decide (cap < n + 1)
        by_cases hc : n < cap
        · rw [if_pos (by omega)]
          rw [ht]
          exact decide_eq_decide.mpr (by omega)
        · rw [if_neg (by omega)]
          exact (decide_eq_true (by omega : cap < n + 1)).symm
      · show (if cs.bytes.length < cap
            then { cs with bytes := cs.bytes ++ [b] }
            else { cs with truncated := true }).read_error = false
        by_cases hc : cs.bytes.length < cap
        · rw [if_pos hc]
          exact he
        · rw [if_neg hc]
          exact he
      · exact hdrop1
      · show rest.length ≤ B
        simp only [List.length_cons] at hblen
        omega

/-- Equation lemma: the child is done writing. -/
theorem childStep_nil_eq (B : Nat) (s : DrainState) (h : s.writes = []) :
    childStep B s = s := by
  unfold childStep
  rw [h]

/-- Equation lemma: the child's next write goes to stdout. -/
theorem childStep_out_eq (B : Nat) (s : DrainState) (b : Char)
    (rest : List (Chan × Char)) (h : s.writes = (Chan.out, b) :: rest) :
    childStep B s =
      if s.outBuf.length < B
      then { s with writes := rest, outBuf := s.outBuf ++ [b] }
      else s := by
  unfold childStep
  rw [h]

/-- Equation lemma: the child's next write goes to stderr. -/
theorem childStep_err_eq (B : Nat) (s : DrainState) (b : Char)
    (rest : List (Chan × Char)) (h : s.writes = (Chan.err, b) :: rest) :
    childStep B s =
      if s.errBuf.length < B
      then { s with writes := rest, errBuf := s.errBuf ++ [b] }
      else s := by
  unfold childStep
  rw [h]

/-- One child write attempt preserves the joint invariant. -/
theorem drainInv_childStep (B cap : Nat) (O E : List Char) (s : DrainState)
    (h : drainInv B cap O E s) : drainInv B cap O E (childStep B s) := by
  obtain ⟨hout, herr⟩ := h
  rcases hw : s.writes with _ | ⟨⟨ch, b⟩, rest⟩
  · rw [childStep_nil_eq B s hw]
    exact ⟨hout, herr⟩
  · cases ch with
      | out =>
          rw [childStep_out_eq B s b rest hw]
          by_cases hlt : s.outBuf.length < B
          · rw [if_pos hlt]
            constructor
            · obtain ⟨n, hn, hb, ht, he, hsplit, hblen⟩ := hout
              rw [hw, chanBytes_cons_same] at hsplit
              refine ⟨n, hn, hb, ht, he, ?_, ?_⟩
              · show (s.outBuf ++ [b]) ++ chanBytes .out rest = O.drop n
                rw [List.append_assoc, List.singleton_append]
                exact hsplit
              · show (s.outBuf ++ [b]).length ≤ B
                rw [List.length_append]
                simp only [List.length_singleton]
                omega
            · obtain ⟨m, hm, hb, ht, he, hsplit, hblen⟩ := herr
              rw [hw, chanBytes_cons_other Chan.err Chan.out b rest (by simp)] at hsplit
              exact ⟨m, hm, hb, ht, he, hsplit, hblen⟩
          · rw [if_neg hlt]
            exact ⟨hout, herr⟩
      | err =>
          rw [childStep_err_eq B s b rest hw]
          by_cases hlt : s.errBuf.length < B
          · rw [if_pos hlt]
            constructor
            · obtain ⟨n, hn, hb, ht, he, hsplit, hblen⟩ := hout
              rw [hw, chanBytes_cons_other Chan.out Chan.err b rest (by simp)] at hsplit
              exact ⟨n, hn, hb, ht, he, hsplit, hblen⟩
            · obtain ⟨m, hm, hb, ht, he, hsplit, hblen⟩ := herr
              rw [hw, chanBytes_cons_same] at hsplit
              refine ⟨m, hm, hb, ht, he, ?_, ?_⟩
              · show (s.errBuf ++ [b]) ++ chanBytes .err rest = E.drop m
                rw [List.append_assoc, List.singleton_append]
                exact hsplit
              · show (s.errBuf ++ [b]).length ≤ B
                rw [List.length_append]
                simp only [List.length_singleton]
                omega
          · rw [if_neg hlt]
            exact ⟨hout, herr⟩

/-- One full concurrent round preserves the joint invariant. -/
theorem drainInv_round (B cap : Nat) (O E : List Char) (s : DrainState)
    (h : drainInv B cap O E s) : drainInv B cap O E (round B cap s) := by
  have h1 := drainInv_childStep B cap O E s h
  exact ⟨chanInv_readByte B cap O _ _ _ h1.1, chanInv_readByte B cap E _ _ _ h1.2⟩

/-- The child step never increases the measure. -/
theorem sMeasure_childStep_le (B : Nat) (s : DrainState) :
    sMeasure (childStep B s) ≤ sMeasure s := by
  rcases hw : s.writes with _ | ⟨⟨ch, b⟩, rest⟩
  · rw [childStep_nil_eq B s hw]
  · cases ch with
    | out =>
        rw [childStep_out_eq B s b rest hw]
        by_cases hlt : s.outBuf.length < B
        · rw [if_pos hlt]
          simp only [sMeasure, hw, List.length_cons, List.length_append,
            List.length_singleton, List.length_nil]
          omega
        · rw [if_neg hlt]
    | err =>
        rw [childStep_err_eq B s b rest hw]
        by_cases hlt : s.errBuf.length < B
        · rw [if_pos hlt]
          simp only [sMeasure, hw, List.length_cons, List.length_append,
            List.length_singleton, List.length_nil]
          omega
        · rw [if_neg hlt]

/-- The child step never shrinks the stdout buffer. -/
theorem childStep_outBuf_le (B : Nat) (s : DrainState) :
    s.outBuf.length ≤ (childStep B s).outBuf.length := by
  rcases hw : s.writes with _ | ⟨⟨ch, b⟩, rest⟩
  · rw [childStep_nil_eq B s hw]
  · cases ch with
    | out =>
        rw [childStep_out_eq B s b rest hw]
        by_cases hlt : s.outBuf.length < B
        · rw [if_pos hlt]
          simp
        · rw [if_neg hlt]
    | err =>
        rw [childStep_err_eq B s b rest hw]
        by_cases hlt : s.errBuf.length < B
        · rw [if_pos hlt]
        · rw [if_neg hlt]

/-- The child step never shrinks the stderr buffer. -/
theorem childStep_errBuf_le (B : Nat) (s : DrainState) :
    s.errBuf.length ≤ (childStep B s).errBuf.length := by
  rcases hw : s.writes with _ | ⟨⟨ch, b⟩, rest⟩
  · rw [childStep_nil_eq B s hw]
  · cases ch with
    | out =>
        rw [childStep_out_eq B s b rest hw]
        by_cases hlt : s.outBuf.length < B
        · rw [if_pos hlt]
        · rw [if_neg hlt]
    | err =>
        rw [childStep_err_eq B s b rest hw]
        by_cases hlt : s.errBuf.length < B
        · rw [if_pos hlt]
          simp
        · rw [if_neg hlt]

/-- With both buffers empty and writes pending, the child makes strict
progress: an empty buffer always has room (capacity at least one). -/
theorem sMeasure_childStep_push (B : Nat) (s : DrainState) (hB : 1 ≤ B)
    (hw : s.writes ≠ []) (ho : s.outBuf = []) (he : s.errBuf = []) :
    sMeasure (childStep B s) < sMeasure s := by
  rcases hww : s.writes with _ | ⟨⟨ch, b⟩, rest⟩
  · exact absurd hww hw
  · cases ch with
    | out =>
        rw [childStep_out_eq B s b rest hww, if_pos (by rw [ho]; simpa using hB)]
        simp only [sMeasure, hww, ho, he, List.length_cons, List.length_append,
          List.length_singleton, List.length_nil]
        omega
    | err =>
        rw [childStep_err_eq B s b rest hww, if_pos (by rw [he]; simpa using hB)]
        simp only [sMeasure, hww, ho, he, List.length_cons, List.length_append,
          List.length_singleton, List.length_nil]
        omega

/-- The measure of a full round, in terms of the child-step state. -/
theorem sMeasure_round_eq (B cap : Nat) (s : DrainState) :
    sMeasure (round B cap s)
      = 2 * (childStep B s).writes.length
        + ((childStep B s).outBuf.length - 1)
        + ((childStep B s).errBuf.length - 1) := by
  simp [round, sMeasure, readByte_fst, List.length_tail]

/-- Every round on an unfinished state makes strict progress: whichever
component is nonempty — a buffer (its reader drains a byte) or the
child's plan (an empty destination buffer always has room) — shrinks the
measure.  This is the deadlock-freedom core. -/
theorem round_measure_lt (B cap : Nat) (hB : 1 ≤ B) (s : DrainState)
    (h : finished s = false) : sMeasure (round B cap s) < sMeasure s := by
  have hcs := sMeasure_childStep_le B s
  have hmr := sMeasure_round_eq B cap s
  have hdef : sMeasure (childStep B s)
      = 2 * (childStep B s).writes.length + (childStep B s).outBuf.length
        + (childStep B s).errBuf.length := rfl
  rcases ho : s.outBuf with _ | ⟨x, xs⟩
  · rcases he : s.errBuf with _ | ⟨y, ys⟩
    · have hwne : s.writes ≠ [] := by
        intro hw
        rw [finished, hw, ho, he] at h
        simp at h
      have hpush := sMeasure_childStep_push B s hB hwne ho he
      omega
    · have h1 : 1 ≤ s.errBuf.length := by rw [he]; simp
      have h2 := childStep_errBuf_le B s
      omega
  · have h1 : 1 ≤ s.outBuf.length := by rw [ho]; simp
    have h2 := childStep_outBuf_le B s
    omega

/-- A state of measure zero is finished. -/
theorem finished_of_measure_zero (s : DrainState) (h : sMeasure s = 0) :
    finished s = true := by
  simp only [sMeasure] at h
  have hw : s.writes = [] := List.length_eq_zero.mp (by omega)
  have ho : s.outBuf = [] := List.length_eq_zero.mp (by omega)
  have he : s.errBuf = [] := List.length_eq_zero.mp (by omega)
  simp [finished, hw, ho, he]

/-- A finished state has an exited child and drained buffers. -/
theorem finished_elim (s : DrainState) (h : finished s = true) :
    s.writes = [] ∧ s.outBuf = [] ∧ s.errBuf = [] := by
  have h2 : (s.writes = [] ∧ s.outBuf = []) ∧ s.errBuf = [] := by
    simpa [finished, Bool.and_eq_true, List.isEmpty_iff] using h
  exact ⟨h2.1.1, h2.1.2, h2.2⟩

/-- With fuel at least the measure, the concurrent drain terminates in a
finished state and maintains the invariant throughout. -/
theorem drainRun_correct (B cap : Nat) (hB : 1 ≤ B) (O E : List Char) :
    ∀ (fuel : Nat) (s : DrainState), drainInv B cap O E s → sMeasure s ≤ fuel →
      finished (drainRun B cap fuel s) = true ∧
      drainInv B cap O E (drainRun B cap fuel s) := by
  intro fuel
  induction fuel with
  | zero =>
      intro s hinv hfuel
      have h0 : sMeasure s = 0 := Nat.le_zero.mp hfuel
      exact ⟨finished_of_measure_zero s h0, hinv⟩
  | succ fuel ih =>
      intro s hinv hfuel
      by_cases hf : finished s = true
      · have hstop : drainRun B cap (fuel + 1) s = s := by
          simp [drainRun, hf]
        rw [hstop]
        exact ⟨hf, hinv⟩
      · have hf2 : finished s = false := by
          revert hf
          cases finished s <;> simp
        have hstep : drainRun B cap (fuel + 1) s = drainRun B cap fuel (round B cap s) := by
          simp [drainRun, hf2]
        rw [hstep]
        refine ih (round B cap s) (drainInv_round B cap O E s hinv) ?_
        have := round_measure_lt B cap hB s hf2
        omega

/-- In a finished state the per-channel invariant pins down the capture:
the first `cap` bytes of the channel's whole stream, truncation flagged
exactly when the stream was longer, and no read error. -/
theorem chanInv_final (B cap : Nat) (orig : List Char) (cs : CapturedStream)
    (h : chanInv B cap orig [] cs []) :
    cs.bytes = orig.take cap ∧
    cs.truncated = decide (cap < orig.length) ∧
    cs.read_error = false := by
  obtain ⟨n, hn, hb, ht, he, hsplit, _⟩ := h
  have hdrop : orig.drop n = [] := by simpa using hsplit.symm
  have hlen : orig.length ≤ n := List.drop_eq_nil_iff.mp hdrop
  have hnn : n = orig.length := by omega
  subst hnn
  refine ⟨?_, ?_, he⟩
  · rw [hb]
    rcases le_or_lt cap orig.length with hc | hc
    · congr 1
      omega
    · have h1 : min orig.length cap = orig.length := by omega
      rw [h1, List.take_length, List.take_of_length_le (le_of_lt hc)]
  · exact ht

/-- C9: an action writing output larger than the OS pipe buffer to both
stdout and stderr simultaneously completes without hanging — within
`2 * |plan|` concurrent rounds — and both streams end up fully captured,
or correctly marked truncated once past the size cap, because each
stream is drained concurrently with waiting for process exit. -/
theorem concurrent_drain_no_deadlock (B cap : Nat) (hB : 1 ≤ B)
    (writes : List (Chan × Char))
    (hout : B < (chanBytes .out writes).length)
    (herr : B < (chanBytes .err writes).length) :
    finished (drainRun B cap (2 * writes.length) (initState writes)) = true ∧
    (drainRun B cap (2 * writes.length) (initState writes)).outCap.bytes
      = (chanBytes .out writes).take cap ∧
    (drainRun B cap (2 * writes.length) (initState writes)).outCap.truncated
      = decide (cap < (chanBytes .out writes).length) ∧
    (drainRun B cap (2 * writes.length) (initState writes)).errCap.bytes
      = (chanBytes .err writes).take cap ∧
    (drainRun B cap (2 * writes.length) (initState writes)).errCap.truncated
      = decide (cap < (chanBytes .err writes).length) := by
  have hinv0 : drainInv B cap (chanBytes .out writes) (chanBytes .err writes)
      (initState writes) := by
    refine ⟨⟨0, ?_, ?_, ?_, ?_, ?_, ?_⟩, ⟨0, ?_, ?_, ?_, ?_, ?_, ?_⟩⟩ <;>
      simp [initState]
  have hfuel : sMeasure (initState writes) ≤ 2 * writes.length := by
    simp [sMeasure, initState]
  obtain ⟨hfin, hOut, hErr⟩ := drainRun_correct B cap hB (chanBytes .out writes)
    (chanBytes .err writes) (2 * writes.length) (initState writes) hinv0 hfuel
  obtain ⟨hw, ho, he⟩ := finished_elim _ hfin
  rw [hw, ho] at hOut
  rw [hw, he] at hErr
  obtain ⟨hb1, ht1, _⟩ := chanInv_final B cap (chanBytes .out writes) _ hOut
  obtain ⟨hb2, ht2, _⟩ := chanInv_final B cap (chanBytes .err writes) _ hErr
  exact ⟨hfin, hb1, ht1, hb2, ht2⟩

/-- A concrete four-byte interleaved write plan for the witness. -/
def demoWrites : List (Chan × Char) :=
  [(Chan.out, Char.ofNat 97), (Chan.err, Char.ofNat 99),
   (Chan.out, Char.ofNat 98), (Chan.err, Char.ofNat 100)]

/-- Closed witness for C9 at buffer capacity 1, two bytes per stream. -/
theorem concurrent_drain_no_deadlock_witness :
    1 ≤ 1 ∧
    1 < (chanBytes .out demoWrites).length ∧
    1 < (chanBytes .err demoWrites).length ∧
    (finished (drainRun 1 8 (2 * demoWrites.length) (initState demoWrites)) = true ∧
     (drainRun 1 8 (2 * demoWrites.length) (initState demoWrites)).outCap.bytes
       = (chanBytes .out demoWrites).take 8 ∧
     (drainRun 1 8 (2 * demoWrites.length) (initState demoWrites)).outCap.truncated
       = decide (8 < (chanBytes .out demoWrites).length) ∧
     (drainRun 1 8 (2 * demoWrites.length) (initState demoWrites)).errCap.bytes
       = (chanBytes .err demoWrites).take 8 ∧
     (drainRun 1 8 (2 * demoWrites.length) (initState demoWrites)).errCap.truncated
       = decide (8 < (chanBytes .err demoWrites).length)) :=
  ⟨by decide, by decide, by decide,
   concurrent_drain_no_deadlock 1 8 (by decide) demoWrites (by decide) (by decide)⟩

end PipeModel

end PXPAgent
